import Mathlib

/-!
Verification development for the blogsync repository: a shallow embedding of
the metadata accessors, slug derivation, markdown normalization handlers,
frontmatter decoding loop, and publish reconciliation loop, together with
theorems checking the natural-language specification against that embedding.

Conventions of the embedding:
* Go strings are Lean `String`s (or `List Char` where byte-level recursion is
  needed); Go byte slices are `List Char`.
* `time.Time` values are modelled as `Nat` instants where `0` is the zero
  time (`IsZero` becomes `= 0`).
* Go pointers that may be `nil` become `Option`; `reflect.DeepEqual` on
  pointer-to-scalar fields becomes `Option` equality.
* Fallible / external calls (the write.as HTTP client, the template engine,
  the filesystem) are inputs of the model: each page record carries the
  results the orchestrator would have obtained from them, and the remote
  client's responses are modelled as an explicit `freshId` oracle for created
  post identifiers.  Emitted network writes are recorded as an `Effect` trace.
-/

namespace Blogsync

/-- A dynamically-typed frontmatter value, as produced by the external
TOML/YAML decoders into Go's `map[string]interface{}`.  The `time` variant
holds an already-parsed timestamp (string-to-time parsing via
`time.Parse` and the `fmts` list in blog.go is an external library call and
is modelled as arriving pre-parsed). -/
inductive MetaValue where
  | str (s : String)
  | boolean (b : Bool)
  | time (t : Nat)
  | int (i : Int)
  deriving DecidableEq, Repr

/-- `blog.Metadata`: a mapping from string keys to dynamically typed values
(Go `map[string]interface{}`), modelled as an association list with unique
keys looked up by first occurrence. -/
def Metadata := List (String × MetaValue)

instance : DecidableEq Metadata := by unfold Metadata; infer_instance

/-- Map indexing `m[key]`, returning the value and whether it was present. -/
def Metadata.get (m : Metadata) (key : String) : Option MetaValue :=
  List.lookup key m

/-- `blog.Metadata.GetString`: value for `key` as a string; a missing key or a
value of any other dynamic type yields `""` (the failed type assertion
`val.(string)` produces the zero value). -/
def Metadata.GetString (m : Metadata) (key : String) : String :=
  match m.get key with
  | some (.str s) => s
  | _ => ""

/-- `blog.Metadata.GetBool`: value for `key` as a bool; a missing key or a
value of any other dynamic type yields `false`. -/
def Metadata.GetBool (m : Metadata) (key : String) : Bool :=
  match m.get key with
  | some (.boolean b) => b
  | _ => false

/-- `blog.Metadata.GetTime`: value for `key` as a timestamp; a missing key or
a value that is not a time (and not a string parseable by the external
`time.Parse` calls, see `MetaValue`) yields the zero time `0`. -/
def Metadata.GetTime (m : Metadata) (key : String) : Nat :=
  match m.get key with
  | some (.time t) => t
  | _ => 0

/-- `timeOrDef` from the helpers file: `val` unless it is the zero time, in
which case `def`. -/
def timeOrDef (val default : Nat) : Nat :=
  if val = 0 then default else val

/-- `orDef` from the helpers file: `val` unless it is empty, in which case
`def`. -/
def orDef (val default : String) : String :=
  if val = "" then default else val

/-- `writeas.Collection`, restricted to the field the program reads
(`Alias`). -/
structure Collection where
  aliasName : String
  deriving DecidableEq, Repr

/-- `writeas.Post`, restricted to the fields the program reads: the scalar
fields compared by `eqPost`, the credentials used for updates and deletes,
and the timestamp/collection fields that `eqPost` deliberately ignores.
`Language` (`*string`) and `RTL` (`*bool`) are nullable pointers, hence
`Option`. -/
structure Post where
  id : String
  token : String
  slug : String
  font : String
  language : Option String
  rtl : Option Bool
  title : String
  content : String
  created : Option Nat
  updated : Option Nat
  collection : Option Collection
  deriving DecidableEq, Repr

/-- `eqPost` from cmp.go: whether two posts are equal for the purpose of
updating them.  The two arguments are `*writeas.Post` pointers, so `nil`
cases are handled first; the field comparison walks ID, Slug, Font,
Language, RTL, Title and Content in order. -/
def eqPost (p1 p2 : Option Post) : Bool :=
  match p1, p2 with
  | none, none => true
  | none, some _ => false
  | some _, none => false
  | some p1, some p2 =>
    if p1.id != p2.id then false
    else if p1.slug != p2.slug then false
    else if p1.font != p2.font then false
    else if p1.language != p2.language then false
    else if p1.rtl != p2.rtl then false
    else if p1.title != p2.title then false
    else if p1.content != p2.content then false
    else true

end Blogsync

namespace Blogsync
namespace filepath

/-- Drop trailing `/` separators (the first loop of `path/filepath.Base`). -/
def dropTrailingSlashes (s : List Char) : List Char :=
  (s.reverse.dropWhile (· == '/')).reverse

/-- Keep only the part after the final `/` separator. -/
def afterLastSlash (s : List Char) : List Char :=
  (s.reverse.takeWhile (· != '/')).reverse

/-- Keep only the part before the final `/` separator (empty when there is
no separator). -/
def beforeLastSlash (s : List Char) : List Char :=
  (s.reverse.dropWhile (· != '/')).reverse

/-- `path/filepath.Base` on slash-separated paths: `"."` for the empty path,
then strip trailing separators, keep the final element, and return `"/"`
when the path consisted entirely of separators. -/
def base (p : String) : String :=
  if p = "" then "."
  else
    let t := afterLastSlash (dropTrailingSlashes p.data)
    if t = [] then "/" else ⟨t⟩

/-- `path/filepath.Ext`: the suffix of the final path element beginning at
its last `.`, or `""` when the final element has no dot.  Mirrors the Go
scan from the end of the string up to the first path separator. -/
def ext (p : String) : String :=
  let elemRev := p.data.reverse.takeWhile (· != '/')
  if elemRev.contains '.' then ⟨'.' :: (elemRev.takeWhile (· != '.')).reverse⟩ else ""

/-- `path/filepath.Dir` on slash-separated paths that contain no `"."` or
`".."` elements and no repeated separators (the only shapes this program
feeds it), where `Clean` reduces to dropping a trailing separator: the part
before the final separator, `"."` when there is no separator, `"/"` when the
remainder is empty. -/
def dir (p : String) : String :=
  let pre := beforeLastSlash p.data
  if pre = [] then "."
  else
    let cleaned := dropTrailingSlashes pre
    if cleaned = [] then "/" else ⟨cleaned⟩

/-- `strings.TrimSuffix`: remove one occurrence of `suffix` from the end of
`s` when present. -/
def trimSuffix (s suffix : String) : String :=
  if suffix.data.isSuffixOf s.data
  then ⟨s.data.take (s.data.length - suffix.data.length)⟩
  else s

/-- `strings.ToLower` restricted to ASCII (the only case conversion the
slugs in this program need). -/
def toLower (s : String) : String :=
  ⟨s.data.map Char.toLower⟩

/-- `strings.ReplaceAll` specialised to a single-character pattern and
single-character replacement, which is how `blog.Slug` uses it. -/
def replaceAllChar (s : String) (pat rep : Char) : String :=
  ⟨s.data.map (fun c => if c == pat then rep else c)⟩

end filepath

/-- `blog.Slug` from internal/blog/blog.go: explicit `slug` metadata key,
else the `title` key, else derived from the filename (the parent directory
name when the base filename is `"index.md"`, otherwise the base without its
extension); the chosen value is lowercased and has spaces and path
separators replaced with `"-"`. -/
def Slug (filename : String) (meta : Metadata) : String :=
  let slug := meta.GetString "slug"
  let slug := if slug = "" then meta.GetString "title" else slug
  let slug :=
    if slug = "" then
      let base := filepath.base filename
      let slug := if base = "index.md" then filepath.base (filepath.dir filename) else ""
      if slug = "" then filepath.trimSuffix base (filepath.ext base) else slug
    else slug
  -- const sep = "-"; lowercase, then replace spaces and the path separator.
  let slug := filepath.toLower slug
  let slug := filepath.replaceAllChar slug ' ' '-'
  filepath.replaceAllChar slug '/' '-'

/-- Spec-derived slug function, used only to compare the specification's
words with `Slug`.  Follows §4.2 of the spec literally: priority order
(1) `slug` key, (2) `title` key, (3) path-derived — "if the base filename is
`index.*`, use the parent directory name, else use the filename without
extension" — then lowercase and replace spaces and separators with `-`. -/
def slugOfSpec (filename : String) (meta : Metadata) : String :=
  let chosen :=
    if meta.GetString "slug" != "" then meta.GetString "slug"
    else if meta.GetString "title" != "" then meta.GetString "title"
    else
      let base := filepath.base filename
      if ⟨base.data.takeWhile (· != '.')⟩ = "index" && base.data.contains '.'
      then filepath.base (filepath.dir filename)
      else filepath.trimSuffix base (filepath.ext base)
  filepath.replaceAllChar (filepath.replaceAllChar (filepath.toLower chosen) ' ' '-') '/' '-'

/-- Spec-derived slug function amended to the behaviour the code actually
implements: the parent-directory rule applies only when the base filename is
exactly `"index.md"`, not to every `index.*` file. -/
def slugOfSpecAmended (filename : String) (meta : Metadata) : String :=
  let chosen :=
    if meta.GetString "slug" != "" then meta.GetString "slug"
    else if meta.GetString "title" != "" then meta.GetString "title"
    else
      let base := filepath.base filename
      if base = "index.md"
      then filepath.base (filepath.dir filename)
      else filepath.trimSuffix base (filepath.ext base)
  filepath.replaceAllChar (filepath.replaceAllChar (filepath.toLower chosen) ' ' '-') '/' '-'

end Blogsync

namespace Blogsync

/-- `bytes.ReplaceAll` specialised to a one-byte pattern and one-byte
replacement, which is how `renderText` calls it. -/
def bytesReplaceAll : List Char → Char → Char → List Char
  | [], _, _ => []
  | c :: cs, pat, rep => (if c == pat then rep else c) :: bytesReplaceAll cs pat rep

/-- `unwrapRenderer.renderText` from markdown.go: the bytes written for a
Text node event, given the node's literal.  Nothing is written on the exit
event; on entry the literal is written with every `'\n'` byte replaced by a
`' '` byte. -/
def renderText (entering : Bool) (literal : List Char) : List Char :=
  if !entering then []
  else bytesReplaceAll literal '\n' ' '

/-- `unwrapRenderer.renderPar` from markdown.go: the string written for a
Paragraph node event, given the renderer's current block-quote depth and
whether the node's previous sibling is itself a Paragraph.  The exit branch
writes a newline and then — because it does not return — falls through to
the quote-marker and extra-separator writes as well. -/
def renderPar (quoteLevel : Nat) (prevIsParagraph entering : Bool) : String :=
  (if !entering then "\n" else "")
  ++ (if quoteLevel > 0 then "> " else "")
  ++ (if prevIsParagraph then "\n" else "")

/-- `unwrapRenderer.renderHR` from markdown.go: the string written for a
HorizontalRule node event.  The exit event returns early writing nothing;
the enter event writes `"---\n"`. -/
def renderHR (entering : Bool) : String :=
  if !entering then ""
  else "---\n"

/-- `bufio.Reader.ReadString('\n')` on the remaining input: the bytes up to
and including the first newline together with the rest; when no newline
remains, the whole remainder is returned (Go pairs it with `io.EOF`, which
`Metadata.Decode` treats as non-fatal).  In particular, reading an exhausted
reader returns the empty line again and again. -/
def readLine : List Char → List Char × List Char
  | [] => ([], [])
  | c :: cs =>
    if c == '\n' then ([c], cs)
    else
      let p := readLine cs
      (c :: p.1, p.2)

/-- Whether a `ReadString('\n')` call succeeded without `io.EOF`, i.e. the
returned line actually ends in the delimiter. -/
def endsWithNl (line : List Char) : Bool :=
  line.getLast? == some '\n'

/-- Each successful read consumes at least one byte. -/
theorem readLine_rest_lt (input : List Char) (h : input ≠ []) :
    (readLine input).2.length < input.length := by
  induction input with
  | nil => exact absurd rfl h
  | cons c cs ih =>
    simp only [readLine]
    by_cases hc : (c == '\n') = true
    · simp [hc]
    · simp only [hc, Bool.false_eq_true, if_false]
      by_cases hcs : cs = []
      · subst hcs; simp [readLine]
      · exact Nat.lt_trans (ih hcs) (Nat.lt_succ_self _)

/-- The successive lines `ReadString('\n')` yields from a finite remainder,
ending with the final (possibly delimiter-less) chunk; an exhausted reader
contributes the single empty chunk that every further read repeats. -/
def chunks (input : List Char) : List (List Char) :=
  if h : input = [] then [[]]
  else
    (readLine input).1 :: chunks (readLine input).2
termination_by input.length
decreasing_by exact readLine_rest_lt input h

/-- The line-accumulation loop of `blog.Metadata.Decode`, instrumented with
fuel: holding the already-read current `line`, it stops when the line equals
the header, and otherwise appends the line to the metadata buffer and reads
the next one.  `none` means the fuel ran out with the loop still running. -/
def decodeLoop (header : List Char) :
    Nat → List Char → List Char → List (List Char) → Option (List (List Char) × List Char)
  | 0, _, _, _ => none
  | fuel + 1, line, rest, acc =>
    if line = header then some (acc, rest)
    else
      let p := readLine rest
      decodeLoop header fuel p.1 p.2 (acc ++ [line])

/-- Outcome of `blog.Metadata.Decode` up to the external unmarshalling step:
either the first `ReadString` failed (no delimiter before end of input) and
the header is returned with the error, or the loop finished and the decoder
hands the accumulated metadata lines to `toml.Unmarshal`/`yaml.Unmarshal`
(external) and returns. -/
inductive DecodeOut where
  | readErr (header : List Char)
  | ok (header : List Char) (metaLines : List (List Char)) (remaining : List Char)
  deriving DecidableEq, Repr

/-- `blog.Metadata.Decode` from internal/blog/blog.go, instrumented with
fuel for the line-accumulation loop; `none` means the loop was still running
when the fuel ran out. -/
def Decode (fuel : Nat) (input : List Char) : Option DecodeOut :=
  let p := readLine input
  if endsWithNl p.1 = false then some (.readErr p.1)
  else
    let q := readLine p.2
    (decodeLoop p.1 fuel q.1 q.2 []).map fun r => .ok p.1 r.1 r.2

/-- The metadata header markers from internal/blog/blog.go. -/
def HeaderTOML : String := "+++\n"

/-- See `HeaderTOML`. -/
def HeaderYAML : String := "---\n"

/-- `publishOptions` from publish.go. -/
structure Opts where
  createCollections : Bool
  del : Bool
  dryRun : Bool
  force : Bool
  collection : String
  content : String
  tmpl : String
  deriving DecidableEq

/-- The site `Config` from main.go, restricted to the scalar fields the
publish path reads. -/
structure Config where
  baseURL : String
  collection : String
  content : String
  description : String
  language : String
  title : String
  tmpl : String
  deriving DecidableEq

/-- `writeas.PostParams`, restricted to the fields publish.go populates. -/
structure PostParams where
  id : String
  token : String
  content : String
  created : Option Nat
  font : String
  isRTL : Option Bool
  language : Option String
  slug : String
  title : String
  updated : Option Nat
  collection : String
  deriving DecidableEq

/-- One local Markdown file as the publish walk sees it: the path, the
outcomes of the external filesystem/decoder/template collaborators (open,
metadata decode, body read, template execution), the decoded header and
metadata, and the rendered template output (`bodyBuf`). -/
structure Page where
  path : String
  openErr : Bool
  decodeErr : Bool
  header : String
  meta : Metadata
  readErr : Bool
  tmplErr : Bool
  rendered : String
  deriving DecidableEq

/-- A remote call with side effects issued by the publish run, recorded in
program order.  Successful responses are modelled by the `freshId` oracle
passed to the run (client failures are external and non-fatal). -/
inductive Effect where
  | createCollection (aliasName : String)
  | createPost (params : PostParams)
  | updatePost (id token : String) (params : PostParams)
  | deletePost (id token : String)
  | unpinPost (collection id : String)
  | pinPost (collection id : String) (position : Int)
  deriving DecidableEq

/-- Which effects are the write calls named by the dry-run contract
(post create/update/delete/pin/unpin). -/
def isWriteEffect : Effect → Bool
  | .createPost _ => true
  | .updatePost _ _ _ => true
  | .deletePost _ _ => true
  | .unpinPost _ _ => true
  | .pinPost _ _ _ => true
  | .createCollection _ => false

/-- The decision the run logs for a page or for a leftover remote post:
the skip reasons of the walk callback's early returns, the
publish/no-op/update decision, and the deletion-pass outcomes. -/
inductive Classification where
  | skipped (path reason : String)
  | create (slug : String)
  | noop (slug : String)
  | update (slug id : String)
  | orphanDelete (slug : String)
  | orphanWarn (slug : String)
  deriving DecidableEq

/-- The collection alias of a remote post: `post.Collection.Alias` when the
post belongs to a collection, `""` otherwise (publish.go lines 318–321). -/
def postCollectionAlias (post : Post) : String :=
  match post.collection with
  | some c => c.aliasName
  | none => ""

/-- The match condition of the reconciliation scan (publish.go line 323):
`slug == post.Slug && collection == postCollection`. -/
def keyMatches (slug collection : String) (post : Post) : Bool :=
  slug == post.slug && collection == postCollectionAlias post

/-- The matching loop of publish.go lines 316–328: scan the pool in order
for the first post whose (slug, collection-alias) equals the page's key;
on a match return it and splice it out of the pool
(`posts = append(posts[:i], posts[i+1:]...)`). -/
def findPost (slug collection : String) : List Post → Option Post × List Post
  | [] => (none, [])
  | post :: rest =>
    if keyMatches slug collection post then (some post, rest)
    else
      let p := findPost slug collection rest
      (p.1, post :: p.2)

/-- Modelled from the spec: `eqParams`, the post-against-params comparison
called at publish.go line 367, is not among the sources (cmp.go carries only
the post-against-post variant `eqPost`).  Per §4.3 step 3 it holds iff
identifier, slug, font, language, right-to-left flag, title and content are
all equal, with timestamps and collection excluded. -/
def eqParams (post : Post) (params : PostParams) : Bool :=
  post.id == params.id && post.slug == params.slug && post.font == params.font &&
  post.language == params.language && post.rtl == params.isRTL &&
  post.title == params.title && post.content == params.content

/-- `createCollectionIfNotExist` from publish.go lines 455–470: return the
collection list unchanged when the alias is already present, otherwise
issue a CreateCollection call and append the new collection. -/
def createCollectionIfNotExist (colls : List String) (aliasName : String) :
    List String × List Effect :=
  if colls.contains aliasName then (colls, [])
  else (colls ++ [aliasName], [.createCollection aliasName])

/-- The mutable state the publish walk threads between pages: the remaining
remote-post pool and the known collection list. -/
structure SyncState where
  posts : List Post
  collections : List String
  deriving DecidableEq

/-- The body of the `WalkPages` callback of publish.go lines 234–432 for a
single page: the early-return skips (open error, metadata decode error,
YAML header, draft, empty title, body read error, template error, empty
rendered body), the pool scan, the parameter assembly, the
skip/update/create decision, and the effect emissions (collection creation,
create/update with `params.Created` cleared, the unconditional unpin
attempt, and the optional pin), every emission guarded by `!opts.dryRun`
exactly where the source guards the client call. -/
def processPage (opts : Opts) (cfg : Config) (freshId : PostParams → String)
    (st : SyncState) (pg : Page) : SyncState × List Classification × List Effect :=
  if pg.openErr then (st, [.skipped pg.path "open error"], [])
  else if pg.decodeErr then (st, [.skipped pg.path "decode error"], [])
  else if pg.header == HeaderYAML then (st, [.skipped pg.path "yaml header"], [])
  else if pg.meta.GetBool "draft" then (st, [.skipped pg.path "draft"], [])
  else if pg.meta.GetString "title" == "" then (st, [.skipped pg.path "empty title"], [])
  else
    let title := pg.meta.GetString "title"
    let collection := if pg.meta.GetString "collection" != ""
                      then pg.meta.GetString "collection" else opts.collection
    if pg.readErr then (st, [.skipped pg.path "read error"], [])
    else if pg.tmplErr then (st, [.skipped pg.path "template error"], [])
    else if pg.rendered == "" then (st, [.skipped pg.path "empty body"], [])
    else
      let slug := Slug pg.path pg.meta
      let m := findPost slug collection st.posts
      let existingPost := m.1
      let posts := m.2
      let created := timeOrDef (pg.meta.GetTime "publishDate") (pg.meta.GetTime "date")
      let createdPtr := if created = 0 then none else some created
      let rtl := pg.meta.GetBool "rtl"
      let lang := if pg.meta.GetString "lang" == "" then cfg.language
                  else pg.meta.GetString "lang"
      let updated := timeOrDef (pg.meta.GetTime "lastmod") created
      let postID := match existingPost with | some p => p.id | none => ""
      let postTok := match existingPost with | some p => p.token | none => ""
      let params : PostParams :=
        { id := postID, token := postTok, content := pg.rendered,
          created := createdPtr, font := orDef (pg.meta.GetString "font") "norm",
          isRTL := some rtl, language := some lang, slug := slug,
          title := title, updated := some updated, collection := collection }
      let skipUpdate := match existingPost with
        | some ex => eqParams ex params && !opts.force
        | none => false
      let cls : Classification := match existingPost with
        | none => .create slug
        | some ex => if skipUpdate then .noop slug else .update slug ex.id
      let collsAndEffs :=
        if !opts.dryRun && !skipUpdate && opts.createCollections
        then createCollectionIfNotExist st.collections params.collection
        else (st.collections, [])
      let writeEffs : List Effect :=
        if !opts.dryRun && !skipUpdate then
          if postID == "" then [.createPost params]
          else [.updatePost postID postTok { params with created := none }]
        else []
      let postID2 := if !opts.dryRun && !skipUpdate && postID == ""
                     then freshId params else postID
      let unpinEffs : List Effect :=
        if !opts.dryRun then [.unpinPost collection postID2] else []
      let pinEffs : List Effect := match pg.meta.get "pin" with
        | some (.int i) => if !opts.dryRun then [.pinPost collection postID2 i] else []
        | _ => []
      (⟨posts, collsAndEffs.1⟩, [cls], collsAndEffs.2 ++ writeEffs ++ unpinEffs ++ pinEffs)

/-- The walk over all pages, threading the state and concatenating the
logged classifications and issued effects in program order. -/
def runPages (opts : Opts) (cfg : Config) (freshId : PostParams → String) :
    SyncState → List Page → SyncState × List Classification × List Effect
  | st, [] => (st, [], [])
  | st, pg :: pgs =>
    let r := processPage opts cfg freshId st pg
    let r' := runPages opts cfg freshId r.1 pgs
    (r'.1, r.2.1 ++ r'.2.1, r.2.2 ++ r'.2.2)

/-- The deletion pass of publish.go lines 437–450: every post still in the
pool is deleted when `-delete` is set (the call guarded by `!opts.dryRun`),
and otherwise triggers the "re-run with --delete" warning. -/
def deletePass (opts : Opts) : List Post → List Classification × List Effect
  | [] => ([], [])
  | post :: rest =>
    let r := deletePass opts rest
    if opts.del then
      (.orphanDelete post.slug :: r.1,
        (if !opts.dryRun then [Effect.deletePost post.id post.token] else []) ++ r.2)
    else (.orphanWarn post.slug :: r.1, r.2)

/-- The whole `publish` function of publish.go lines 185–453 after the
template compilation and the post-listing fetch (both external): the
optional initial site-collection creation (not guarded by dry-run — no
caller combines `createCollections` with `dryRun`), the page walk, and the
deletion pass. -/
def publishRun (opts : Opts) (cfg : Config) (freshId : PostParams → String)
    (userCollections : List String) (pages : List Page) (posts : List Post) :
    List Classification × List Effect :=
  let initColls := if opts.createCollections
                   then createCollectionIfNotExist userCollections cfg.collection
                   else ([], [])
  let r := runPages opts cfg freshId ⟨posts, initColls.1⟩ pages
  let d := deletePass opts r.1.posts
  (r.2.1 ++ d.1, initColls.2 ++ r.2.2 ++ d.2)

/-- C1: the post-equality law `eqPost` returns `true` on two (non-nil) posts
exactly when identifier, slug, font, language, right-to-left flag, title and
content agree, and posts that differ only in their creation/update
timestamps or collection membership are still reported equal. -/
theorem eqPost_field_characterization :
    (∀ p1 p2 : Post,
      eqPost (some p1) (some p2) =
        (p1.id == p2.id && p1.slug == p2.slug && p1.font == p2.font &&
         p1.language == p2.language && p1.rtl == p2.rtl &&
         p1.title == p2.title && p1.content == p2.content))
    ∧ (∀ (p : Post) (c u c' u' : Option Nat) (col col' : Option Collection),
      eqPost (some { p with created := c, updated := u, collection := col })
             (some { p with created := c', updated := u', collection := col' }) = true) := by
  constructor
  · intro p1 p2
    simp only [eqPost, bne_iff_ne, ne_eq, ite_not]
    by_cases h1 : p1.id = p2.id <;> by_cases h2 : p1.slug = p2.slug <;>
      by_cases h3 : p1.font = p2.font <;> by_cases h4 : p1.language = p2.language <;>
      by_cases h5 : p1.rtl = p2.rtl <;> by_cases h6 : p1.title = p2.title <;>
      by_cases h7 : p1.content = p2.content <;>
      simp [h1, h2, h3, h4, h5, h6, h7]
  · intro p c u c' u' col col'
    simp [eqPost]

/-- `filepath.base` never returns the empty string (it falls back to `"."`
or `"/"`). -/
theorem filepath_base_ne_empty (p : String) : filepath.base p ≠ "" := by
  unfold filepath.base
  split
  · decide
  · dsimp only
    split
    · decide
    · rename_i ht
      simp only [ne_eq, String.ext_iff]
      simpa using ht

/-- C6 (counterexample): on `"mypost/index.markdown"` with empty metadata the
code derives slug `"index"`, while the claim's `index.*` rule derives
`"mypost"`; the two derivations disagree. -/
theorem slug_index_star_counterexample :
    Slug "mypost/index.markdown" [] = "index"
    ∧ slugOfSpec "mypost/index.markdown" [] = "mypost"
    ∧ ("index" == "mypost") = false := by
  refine ⟨by rfl, by rfl, by rfl⟩

/-- C6 (amended): the derived slug follows the claimed priority order
(slug key, then title key, then path-derived) with lowercasing and
space/separator replacement, except that the parent-directory rule applies
only when the base filename is exactly `"index.md"` (not every `index.*`
file). -/
theorem slug_matches_amended_spec (filename : String) (meta : Metadata) :
    Slug filename meta = slugOfSpecAmended filename meta := by
  unfold Slug slugOfSpecAmended
  simp only [bne_iff_ne, ne_eq, ite_not]
  by_cases h1 : meta.GetString "slug" = ""
  · by_cases h2 : meta.GetString "title" = ""
    · by_cases h3 : filepath.base filename = "index.md"
      · simp [h1, h2, h3, filepath_base_ne_empty (filepath.dir filename)]
      · simp [h1, h2, h3]
    · simp [h1, h2]
  · simp [h1]

/-- Helper: the single-byte `bytes.ReplaceAll` is a pointwise map. -/
theorem bytesReplaceAll_eq_map (l : List Char) (pat rep : Char) :
    bytesReplaceAll l pat rep = l.map (fun c => if c == pat then rep else c) := by
  induction l with
  | nil => rfl
  | cons c cs ih => simp [bytesReplaceAll, ih]

/-- C7: on entry, a Text node's literal is emitted with every embedded
newline replaced by exactly one space, so the emitted run contains no
newline byte; the exit event emits nothing. -/
theorem renderText_unwraps_newlines (literal : List Char) :
    renderText true literal = literal.map (fun c => if c = '\n' then ' ' else c)
    ∧ (renderText true literal).contains '\n' = false
    ∧ renderText false literal = [] := by
  refine ⟨?_, ?_, rfl⟩
  · show bytesReplaceAll literal '\n' ' ' = _
    rw [bytesReplaceAll_eq_map]
    simp
  · show (bytesReplaceAll literal '\n' ' ').contains '\n' = false
    rw [bytesReplaceAll_eq_map]
    induction literal with
    | nil => rfl
    | cons c cs ih =>
      simp only [List.map_cons, List.contains_cons, Bool.or_eq_false_iff]
      refine ⟨?_, ih⟩
      by_cases hc : c = '\n'
      · simp [hc]
      · simp [hc, beq_eq_false_iff_ne, Ne.symm hc]

/-- C8 (code divergence): on the exit event of a Paragraph the handler does
not stop after the newline — with quote depth 1 it also emits the `"> "`
marker (`"\n> "`), and with a preceding Paragraph sibling it also emits the
extra separator newline (`"\n\n"`); the enter event emits the marker as the
comments describe. -/
theorem renderPar_exit_also_emits_marker :
    renderPar 1 false false = "\n> "
    ∧ renderPar 0 true false = "\n\n"
    ∧ renderPar 1 false true = "> " :=
  ⟨rfl, rfl, rfl⟩

/-- C9 (counterexample): the HorizontalRule handler emits `"---\n"` on the
enter event and nothing on the exit event — the opposite of the claimed
exit-only behaviour. -/
theorem renderHR_emits_on_enter :
    renderHR true = "---\n"
    ∧ renderHR false = ""
    ∧ (renderHR true == "") = false :=
  ⟨rfl, rfl, rfl⟩

/-- C9 (amended): the HorizontalRule handler emits `"---\n"` on the enter
event only, and produces no output on the exit event. -/
theorem renderHR_enter_only (entering : Bool) :
    renderHR entering = if entering then "---\n" else "" := by
  cases entering <;> rfl

/-- Helper: the pool scan returns the first key match (by index) and splices
exactly that occurrence out of the pool. -/
theorem findPost_eq_findIdx (slug collection : String) (posts : List Post) :
    findPost slug collection posts =
      match posts.findIdx? (keyMatches slug collection) with
      | none => (none, posts)
      | some i => (posts[i]?, posts.eraseIdx i) := by
  induction posts with
  | nil => rfl
  | cons post rest ih =>
    by_cases h : keyMatches slug collection post = true
    · simp [findPost, h, List.findIdx?_cons]
    · simp only [findPost, h, Bool.false_eq_true, if_false, List.findIdx?_cons,
        List.findIdx?_succ]
      cases hidx : rest.findIdx? (keyMatches slug collection) with
      | none => simp [ih, hidx]
      | some i =>
        simp [ih, hidx, List.eraseIdx_cons_succ]

/-- Helper: matching removes exactly one key-matching post from the pool
(and nothing when there is no match). -/
theorem findPost_countP (slug collection : String) (posts : List Post) :
    posts.countP (keyMatches slug collection) =
      ((findPost slug collection posts).2).countP (keyMatches slug collection)
        + (match (findPost slug collection posts).1 with | some _ => 1 | none => 0) := by
  induction posts with
  | nil => rfl
  | cons post rest ih =>
    by_cases h : keyMatches slug collection post = true
    · simp [findPost, h, List.countP_cons]
    · simp only [findPost, h, Bool.false_eq_true, if_false, List.countP_cons]
      cases hfind : (findPost slug collection rest).1 with
      | none => simpa [h, hfind] using ih
      | some p =>
        rw [hfind] at ih
        simp [h, ih]

/-- C2 (amended): for each single eligible Page processed, the pool scan
returns the first remote post (in pool order) whose (slug, collection-alias)
equals the page's key and removes exactly that occurrence from the pool
immediately, so one page consumes at most one of the key's posts and all
other posts remain; the removed occurrence is gone from the continuing pool
and hence unavailable to later pages and to the deletion pass.  (With N
same-key pages each page can consume one more post, so across a run up to
min(N, M) of M same-key posts are consumed — not at most one per run.) -/
theorem findPost_first_match_removed (slug collection : String) (posts : List Post) :
    (findPost slug collection posts =
      match posts.findIdx? (keyMatches slug collection) with
      | none => (none, posts)
      | some i => (posts[i]?, posts.eraseIdx i))
    ∧ (posts.countP (keyMatches slug collection) =
        ((findPost slug collection posts).2).countP (keyMatches slug collection)
          + (match (findPost slug collection posts).1 with | some _ => 1 | none => 0)) :=
  ⟨findPost_eq_findIdx slug collection posts, findPost_countP slug collection posts⟩

/-- C2 (counterexample): a run with two eligible Pages and two remote posts
all sharing the key ("post", "") consumes BOTH remote posts — the claim
that at most one of the M same-key posts is consumed per run (leaving the
rest in the pool) fails as soon as several pages share the key. -/
theorem two_pages_consume_two_posts :
    keyMatches "post" ""
      ⟨"id1", "tok1", "post", "norm", none, none, "A", "x", none, none, none⟩ = true
    ∧ keyMatches "post" ""
      ⟨"id2", "tok2", "post", "norm", none, none, "B", "y", none, none, none⟩ = true
    ∧ (runPages ⟨false, false, false, false, "", "content/", "tmpl"⟩
        ⟨"", "", "content/", "", "", "", ""⟩ (fun _ => "new")
        ⟨[⟨"id1", "tok1", "post", "norm", none, none, "A", "x", none, none, none⟩,
          ⟨"id2", "tok2", "post", "norm", none, none, "B", "y", none, none, none⟩], []⟩
        [⟨"a.md", false, false, "+++\n", [("slug", .str "post"), ("title", .str "A")],
          false, false, "body"⟩,
         ⟨"b.md", false, false, "+++\n", [("slug", .str "post"), ("title", .str "B")],
          false, false, "body"⟩]).1.posts = [] := by
  refine ⟨by decide, by decide, by decide⟩

/-- C3 (amended): a Page skipped for a missing title or an empty rendered
body consumes nothing from the pool and issues no call itself — but it
leaves the pool untouched, and with deletion mode enabled (live run) the
deletion pass deletes every remote post left in the pool, so a skipped
file's same-slug remote post is NOT protected from deletion. -/
theorem skipped_page_no_protection (opts : Opts) (cfg : Config)
    (freshId : PostParams → String) (st : SyncState) (pg : Page)
    (hopen : pg.openErr = false) (hdecode : pg.decodeErr = false)
    (hyaml : (pg.header == HeaderYAML) = false)
    (hdraft : pg.meta.GetBool "draft" = false)
    (hskip : (pg.meta.GetString "title" == "") = true
      ∨ (pg.readErr = false ∧ pg.tmplErr = false ∧ (pg.rendered == "") = true)) :
    (processPage opts cfg freshId st pg).1 = st
    ∧ (processPage opts cfg freshId st pg).2.2 = []
    ∧ ∀ pool : List Post,
        (deletePass { opts with del := true, dryRun := false } pool).2 =
          pool.map (fun p => Effect.deletePost p.id p.token) := by
  refine ⟨?_, ?_, ?_⟩
  · unfold processPage
    rcases hskip with hsk | ⟨hread, htmpl, hrend⟩
    · simp [hopen, hdecode, hyaml, hdraft, hsk]
    · by_cases htitle : (pg.meta.GetString "title" == "") = true
      · simp [hopen, hdecode, hyaml, hdraft, htitle]
      · simp [hopen, hdecode, hyaml, hdraft, htitle, hread, htmpl, hrend]
  · unfold processPage
    rcases hskip with hsk | ⟨hread, htmpl, hrend⟩
    · simp [hopen, hdecode, hyaml, hdraft, hsk]
    · by_cases htitle : (pg.meta.GetString "title" == "") = true
      · simp [hopen, hdecode, hyaml, hdraft, htitle]
      · simp [hopen, hdecode, hyaml, hdraft, htitle, hread, htmpl, hrend]
  · intro pool
    induction pool with
    | nil => rfl
    | cons post rest ih => simp [deletePass, ih]

/-- C3 (witness for the amended claim): a concrete skipped page (no title)
leaves the one-post pool untouched, and the live deletion pass then deletes
that post. -/
theorem skipped_page_no_protection_witness :
    (processPage ⟨false, false, false, false, "", "content/", "tmpl"⟩
        ⟨"", "", "content/", "", "", "", ""⟩ (fun _ => "new")
        ⟨[⟨"idX", "tokX", "x", "norm", none, none, "X", "b", none, none, none⟩], []⟩
        ⟨"x.md", false, false, "+++\n", [], false, false, "body"⟩).1
      = ⟨[⟨"idX", "tokX", "x", "norm", none, none, "X", "b", none, none, none⟩], []⟩
    ∧ (deletePass { (⟨false, false, false, false, "", "content/", "tmpl"⟩ : Opts) with
          del := true, dryRun := false }
        [⟨"idX", "tokX", "x", "norm", none, none, "X", "b", none, none, none⟩]).2
      = [Effect.deletePost "idX" "tokX"] := by
  have h := skipped_page_no_protection
    ⟨false, false, false, false, "", "content/", "tmpl"⟩
    ⟨"", "", "content/", "", "", "", ""⟩ (fun _ => "new")
    ⟨[⟨"idX", "tokX", "x", "norm", none, none, "X", "b", none, none, none⟩], []⟩
    ⟨"x.md", false, false, "+++\n", [], false, false, "body"⟩
    rfl rfl (by decide) rfl (Or.inl (by decide))
  exact ⟨h.1, by rw [h.2.2]; rfl⟩

/-- C3 (counterexample): with deletion mode on, a run whose only local file
is skipped for an empty title deletes the remote post carrying that file's
slug — the skip does not prevent the delete. -/
theorem skipped_page_post_is_deleted :
    Metadata.GetString [] "title" = ""
    ∧ Slug "x.md" [] = "x"
    ∧ (publishRun ⟨false, true, false, false, "", "content/", "tmpl"⟩
        ⟨"", "", "content/", "", "", "", ""⟩ (fun _ => "new") []
        [⟨"x.md", false, false, "+++\n", [], false, false, "body"⟩]
        [⟨"idX", "tokX", "x", "norm", none, none, "X", "b", none, none, none⟩]).2
      = [Effect.deletePost "idX" "tokX"]
    ∧ (publishRun ⟨false, true, false, false, "", "content/", "tmpl"⟩
        ⟨"", "", "content/", "", "", "", ""⟩ (fun _ => "new") []
        [⟨"x.md", false, false, "+++\n", [], false, false, "body"⟩]
        [⟨"idX", "tokX", "x", "norm", none, none, "X", "b", none, none, none⟩]).1
      = [.skipped "x.md" "empty title", .orphanDelete "x"] := by
  refine ⟨rfl, by rfl, by decide, by decide⟩

/-- Helper: the dry-run flag is consulted only in the effect-emission and
collection-bookkeeping positions of `processPage`; the pool evolution and
the logged classification are computed before and independently of it (and
independently of the collection list). -/
theorem processPage_decisions_indep (opts : Opts) (b₁ b₂ : Bool) (cfg : Config)
    (freshId : PostParams → String) (st₁ st₂ : SyncState) (pg : Page)
    (hposts : st₁.posts = st₂.posts) :
    (processPage { opts with dryRun := b₁ } cfg freshId st₁ pg).1.posts
      = (processPage { opts with dryRun := b₂ } cfg freshId st₂ pg).1.posts
    ∧ (processPage { opts with dryRun := b₁ } cfg freshId st₁ pg).2.1
      = (processPage { opts with dryRun := b₂ } cfg freshId st₂ pg).2.1 := by
  obtain ⟨posts₁, colls₁⟩ := st₁
  obtain ⟨posts₂, colls₂⟩ := st₂
  simp only at hposts
  subst hposts
  constructor <;>
    · unfold processPage
      simp only [apply_ite (@Prod.fst SyncState (List Classification × List Effect)),
        apply_ite SyncState.posts,
        apply_ite (@Prod.snd SyncState (List Classification × List Effect)),
        apply_ite (@Prod.fst (List Classification) (List Effect))]

/-- Helper: a dry-run `processPage` issues no effect at all. -/
theorem processPage_dry_no_effects (opts : Opts) (cfg : Config)
    (freshId : PostParams → String) (st : SyncState) (pg : Page) :
    (processPage { opts with dryRun := true } cfg freshId st pg).2.2 = [] := by
  unfold processPage
  simp only [apply_ite (@Prod.snd SyncState (List Classification × List Effect)),
    apply_ite (@Prod.snd (List Classification) (List Effect))]
  cases hpin : pg.meta.get "pin" with
  | none => simp
  | some v => cases v <;> simp

/-- Helper: `runPages` inherits decision-independence from `processPage`. -/
theorem runPages_decisions_indep (opts : Opts) (b₁ b₂ : Bool) (cfg : Config)
    (freshId : PostParams → String) (pages : List Page) :
    ∀ st₁ st₂ : SyncState, st₁.posts = st₂.posts →
      (runPages { opts with dryRun := b₁ } cfg freshId st₁ pages).1.posts
        = (runPages { opts with dryRun := b₂ } cfg freshId st₂ pages).1.posts
      ∧ (runPages { opts with dryRun := b₁ } cfg freshId st₁ pages).2.1
        = (runPages { opts with dryRun := b₂ } cfg freshId st₂ pages).2.1 := by
  induction pages with
  | nil => intro st₁ st₂ h; exact ⟨h, rfl⟩
  | cons pg pgs ih =>
    intro st₁ st₂ h
    have hp := processPage_decisions_indep opts b₁ b₂ cfg freshId st₁ st₂ pg h
    have hr := ih (processPage { opts with dryRun := b₁ } cfg freshId st₁ pg).1
      (processPage { opts with dryRun := b₂ } cfg freshId st₂ pg).1 hp.1
    exact ⟨hr.1, by simp only [runPages]; rw [hp.2, hr.2]⟩

/-- Helper: a dry-run `runPages` issues no effect at all. -/
theorem runPages_dry_no_effects (opts : Opts) (cfg : Config)
    (freshId : PostParams → String) (pages : List Page) :
    ∀ st : SyncState, (runPages { opts with dryRun := true } cfg freshId st pages).2.2 = [] := by
  induction pages with
  | nil => intro st; rfl
  | cons pg pgs ih =>
    intro st
    simp only [runPages]
    rw [processPage_dry_no_effects, ih]
    rfl

/-- Helper: the deletion pass logs the same delete-vs-orphan classifications
whatever the dry-run flag, and a dry-run deletion pass issues no effect. -/
theorem deletePass_decisions_indep (opts : Opts) (b₁ b₂ : Bool) (pool : List Post) :
    (deletePass { opts with dryRun := b₁ } pool).1
      = (deletePass { opts with dryRun := b₂ } pool).1
    ∧ (deletePass { opts with dryRun := true } pool).2 = [] := by
  induction pool with
  | nil => exact ⟨rfl, rfl⟩
  | cons post rest ih =>
    constructor
    · simp only [deletePass]
      split <;> rw [ih.1]
    · simp only [deletePass]
      split <;> simp [ih.2]

/-- C4: a dry run and a live run produce identical classifications for
every page (skip/no-op/update/create) and for every leftover remote post
(delete vs orphan warning), and the dry run issues none of the write calls
(post create, update, delete, pin, or unpin); the only effect a dry run can
ever issue is the initial site-collection creation of the preview path,
which no caller combines with dry-run, so with `createCollections` off a
dry run issues no call at all. -/
theorem dry_run_same_decisions_no_writes (opts : Opts) (cfg : Config)
    (freshId : PostParams → String) (userCollections : List String)
    (pages : List Page) (posts : List Post) :
    (publishRun { opts with dryRun := true } cfg freshId userCollections pages posts).1
      = (publishRun { opts with dryRun := false } cfg freshId userCollections pages posts).1
    ∧ ((publishRun { opts with dryRun := true } cfg freshId userCollections pages posts).2).filter
        isWriteEffect = []
    ∧ (opts.createCollections = false →
        (publishRun { opts with dryRun := true } cfg freshId userCollections pages posts).2 = []) := by
  have hrun := runPages_decisions_indep opts true false cfg freshId pages
    ⟨posts, (if opts.createCollections
             then createCollectionIfNotExist userCollections cfg.collection
             else ([], [])).1⟩
    ⟨posts, (if opts.createCollections
             then createCollectionIfNotExist userCollections cfg.collection
             else ([], [])).1⟩ rfl
  have hdel := deletePass_decisions_indep opts true false
    (runPages { opts with dryRun := true } cfg freshId
      ⟨posts, (if opts.createCollections
               then createCollectionIfNotExist userCollections cfg.collection
               else ([], [])).1⟩ pages).1.posts
  refine ⟨?_, ?_, ?_⟩
  · unfold publishRun
    dsimp only
    rw [hdel.1, hrun.1, hrun.2]
  · unfold publishRun
    dsimp only
    rw [runPages_dry_no_effects, hdel.2]
    simp only [List.append_nil]
    by_cases hc : opts.createCollections = true
    · simp only [hc, if_true]
      unfold createCollectionIfNotExist
      split
      · rfl
      · rfl
    · simp only [hc]
      rfl
  · intro hcc
    unfold publishRun
    dsimp only
    rw [runPages_dry_no_effects, hdel.2, hcc]
    rfl

/-- C4 (witness): on a concrete run (one matching page, one orphaned remote
post, deletion mode on) the dry run classifies exactly as the live run and
issues no call. -/
theorem dry_run_same_decisions_no_writes_witness :
    (publishRun { (⟨false, true, false, false, "", "content/", "tmpl"⟩ : Opts) with
        dryRun := true }
      ⟨"", "", "content/", "", "", "", ""⟩ (fun _ => "new") []
      [⟨"a.md", false, false, "+++\n", [("slug", .str "post"), ("title", .str "A")],
        false, false, "body"⟩]
      [⟨"id1", "tok1", "post", "norm", none, none, "A", "x", none, none, none⟩,
       ⟨"idX", "tokX", "orphan", "norm", none, none, "X", "b", none, none, none⟩]).1
      = (publishRun { (⟨false, true, false, false, "", "content/", "tmpl"⟩ : Opts) with
          dryRun := false }
        ⟨"", "", "content/", "", "", "", ""⟩ (fun _ => "new") []
        [⟨"a.md", false, false, "+++\n", [("slug", .str "post"), ("title", .str "A")],
          false, false, "body"⟩]
        [⟨"id1", "tok1", "post", "norm", none, none, "A", "x", none, none, none⟩,
         ⟨"idX", "tokX", "orphan", "norm", none, none, "X", "b", none, none, none⟩]).1
    ∧ (publishRun { (⟨false, true, false, false, "", "content/", "tmpl"⟩ : Opts) with
        dryRun := true }
      ⟨"", "", "content/", "", "", "", ""⟩ (fun _ => "new") []
      [⟨"a.md", false, false, "+++\n", [("slug", .str "post"), ("title", .str "A")],
        false, false, "body"⟩]
      [⟨"id1", "tok1", "post", "norm", none, none, "A", "x", none, none, none⟩,
       ⟨"idX", "tokX", "orphan", "norm", none, none, "X", "b", none, none, none⟩]).2 = [] := by
  have h := dry_run_same_decisions_no_writes
    ⟨false, true, false, false, "", "content/", "tmpl"⟩
    ⟨"", "", "content/", "", "", "", ""⟩ (fun _ => "new") []
    [⟨"a.md", false, false, "+++\n", [("slug", .str "post"), ("title", .str "A")],
      false, false, "body"⟩]
    [⟨"id1", "tok1", "post", "norm", none, none, "A", "x", none, none, none⟩,
     ⟨"idX", "tokX", "orphan", "norm", none, none, "X", "b", none, none, none⟩]
  exact ⟨h.1, h.2.2 rfl⟩

/-- The per-effect check of the `created`-timestamp contract for a given
metadata map: a CreatePost call must carry the first non-zero of
(`publishDate`, `date`) or omit the field when both are zero, and an
UpdatePost call must always omit it; other calls carry no `created`. -/
def createdCheck (meta : Metadata) : Effect → Bool
  | .createPost params =>
      params.created ==
        (if meta.GetTime "publishDate" ≠ 0 then some (meta.GetTime "publishDate")
         else if meta.GetTime "date" ≠ 0 then some (meta.GetTime "date")
         else none)
  | .updatePost _ _ params => params.created == none
  | _ => true

/-- C5: every CreatePost call a page ever produces carries a `created`
param equal to the first non-zero of (frontmatter `publishDate`,
frontmatter `date`) and omits the field (`none`) when both are zero, and
every UpdatePost call carries `created = none` — the field is stripped
before a genuine update regardless of its derived value. -/
theorem created_param_derivation (opts : Opts) (cfg : Config)
    (freshId : PostParams → String) (st : SyncState) (pg : Page) :
    ((processPage opts cfg freshId st pg).2.2).all (createdCheck pg.meta) = true := by
  unfold processPage
  simp only [apply_ite (@Prod.snd SyncState (List Classification × List Effect)),
    apply_ite (@Prod.snd (List Classification) (List Effect)),
    apply_ite (fun l : List Effect => l.all (createdCheck pg.meta))]
  cases hpin : pg.meta.get "pin" with
  | none =>
    by_cases hp : pg.meta.GetTime "publishDate" = 0 <;>
      by_cases hd : pg.meta.GetTime "date" = 0 <;>
      simp [createdCheck, createCollectionIfNotExist, timeOrDef, hp, hd,
        List.all_append,
        apply_ite (fun p : List String × List Effect => p.2.all (createdCheck pg.meta)),
        apply_ite (fun l : List Effect => l.all (createdCheck pg.meta))]
  | some v =>
    cases v <;>
      (by_cases hp : pg.meta.GetTime "publishDate" = 0 <;>
        by_cases hd : pg.meta.GetTime "date" = 0 <;>
        simp [createdCheck, createCollectionIfNotExist, timeOrDef, hp, hd,
          List.all_append,
          apply_ite (fun p : List String × List Effect => p.2.all (createdCheck pg.meta)),
          apply_ite (fun l : List Effect => l.all (createdCheck pg.meta))])

/-- Helper: the line-accumulation loop cannot exit while the header appears
neither as the current line nor among the chunks still to be read (once the
reader is exhausted every further read yields the empty line, which a
newline-terminated header can never equal). -/
theorem decodeLoop_no_exit (header : List Char) (hne : header ≠ []) :
    ∀ (fuel : Nat) (line rest : List Char) (acc : List (List Char)),
      header ∉ line :: chunks rest →
      decodeLoop header fuel line rest acc = none := by
  intro fuel
  induction fuel with
  | zero => intro line rest acc _; rfl
  | succ n ih =>
    intro line rest acc hmem
    have hline : ¬line = header := by
      intro he
      exact hmem (he ▸ List.mem_cons_self _ _)
    simp only [decodeLoop, if_neg hline]
    apply ih
    by_cases hrest : rest = []
    · subst hrest
      intro hcon
      rcases List.mem_cons.mp hcon with h1 | h1
      · exact hne (by simpa [readLine] using h1)
      · have : header ∈ chunks ([] : List Char) := by simpa [readLine] using h1
        rw [chunks] at this
        simp at this
        exact hne this
    · have hexp : chunks rest = (readLine rest).1 :: chunks (readLine rest).2 := by
        rw [chunks, dif_neg hrest]
      intro hcon
      exact hmem (List.mem_cons_of_mem _ (hexp ▸ hcon))

/-- C10: when the first `ReadString` succeeds (the header line ends in a
newline) but no subsequent read ever yields a line byte-identical to the
header, the line-accumulation loop of `Metadata.Decode` never exits: for
every fuel bound the decoder returns neither a value nor an error. -/
theorem decode_diverges_without_closing_delimiter (input : List Char)
    (hok : endsWithNl (readLine input).1 = true)
    (habs : (readLine input).1 ∉ chunks (readLine input).2) :
    ∀ fuel, Decode fuel input = none := by
  intro fuel
  have hne : (readLine input).1 ≠ [] := by
    intro he
    rw [he] at hok
    simp [endsWithNl] at hok
  unfold Decode
  rw [if_neg (by simp [hok])]
  have hloop := decodeLoop_no_exit (readLine input).1 hne fuel
    (readLine (readLine input).2).1 (readLine (readLine input).2).2 [] ?_
  · simp [hloop]
  · by_cases hrest : (readLine input).2 = []
    · rw [hrest]
      intro hcon
      rcases List.mem_cons.mp hcon with h1 | h1
      · exact hne (by simpa [readLine] using h1)
      · have : (readLine input).1 ∈ chunks ([] : List Char) := by simpa [readLine] using h1
        rw [chunks] at this
        simp at this
        exact hne this
    · have hexp : chunks (readLine input).2 =
          (readLine (readLine input).2).1 :: chunks (readLine (readLine input).2).2 := by
        rw [chunks, dif_neg hrest]
      rw [← hexp]
      exact habs

/-- Helper: the chunk sequence of the concrete remainder `"title\n"`. -/
theorem chunks_title_eval : chunks ("title\n".data) = ["title\n".data, []] := by
  rw [chunks, dif_neg (by decide)]
  rw [show readLine ("title\n".data) = ("title\n".data, []) from by decide]
  rw [chunks, dif_pos rfl]

/-- C10 (witness): on the concrete input `"+++\ntitle\n"` — a TOML header
whose closing `"+++\n"` line never appears — the hypotheses hold and the
decoder is still running after 100 loop iterations. -/
theorem decode_diverges_witness :
    endsWithNl (readLine ("+++\ntitle\n".data)).1 = true
    ∧ chunks (readLine ("+++\ntitle\n".data)).2 = ["title\n".data, []]
    ∧ Decode 100 ("+++\ntitle\n".data) = none :=
  ⟨by decide,
    by rw [show (readLine ("+++\ntitle\n".data)).2 = "title\n".data from by decide,
           chunks_title_eval],
    decode_diverges_without_closing_delimiter _ (by decide)
      (by rw [show (readLine ("+++\ntitle\n".data)).2 = "title\n".data from by decide,
              chunks_title_eval]
          decide) 100⟩

end Blogsync
